import Mathlib

/-!
Verification development for the thandie-agent workspace scanner.

The Go sources are embedded shallowly:

* `ListTopLevelDirs`, `CollectGitMetadata`, `ScanDirectoriesWithMetadata`
  follow `internal/scanner/scanner.go`;
* the result cache (`ScanResult`, `SaveScanResultWithMetadata`,
  `LoadScanResult`, `getCacheFilePath` with its SHA-256 key) follows
  `internal/cache`;
* `performScanWithProgress` follows the cancellable scan loop of the
  tview front end.

Filesystem reads, go-git query results and the wall clock are passed in
as explicit values; Go slices are modelled as `Option (List α)` so that
the nil slice / empty slice distinction (which `encoding/json` observes)
is preserved.  JSON documents are modelled as a value tree `Jval`;
`encoding/json` marshalling of the cache entry is the function
`encodeScanResult`, unmarshalling is `decodeScanResult`.
-/

namespace Thandie

/-- A Go slice: `none` is the nil slice, `some l` a non-nil slice with
elements `l`.  `encoding/json` marshals the former to `null` and the
latter to an array, which is why the distinction is kept. -/
abbrev GoSlice (α : Type) := Option (List α)

/-- `len`/iteration view of a Go slice (nil behaves as empty). -/
def sliceList {α : Type} : GoSlice α → List α
  | none => []
  | some l => l

/-- Go `len` of a slice. -/
def sliceLen {α : Type} (s : GoSlice α) : Nat :=
  (sliceList s).length

/-- Go `append(s, a)`: the result is always non-nil. -/
def goAppend {α : Type} (s : GoSlice α) (a : α) : GoSlice α :=
  some (sliceList s ++ [a])

/-- `filepath.Join(root, name)` for a clean root and a slash-free entry
name, as produced by `os.ReadDir`. -/
def goJoin (root name : String) : String :=
  root ++ "/" ++ name

/-- `strings.Join(parts, sep)`. -/
def stringsJoin (sep : String) : List String → String
  | [] => ""
  | [a] => a
  | a :: rest => a ++ sep ++ stringsJoin sep rest

/-- `strings.HasPrefix(s, ".")` of Go (also `len(s) > 0 && s[0] == '.'`):
whether the first character is a dot. -/
def startsWithDot (s : String) : Bool :=
  match s.data with
  | [] => false
  | c :: _ => c == '.'

def pathBaseAux : List Char → List Char → List Char
  | [], acc => acc
  | c :: rest, acc =>
    if c == '/' then pathBaseAux rest []
    else pathBaseAux rest (acc ++ [c])

/-- `filepath.Base` for the slash-separated paths built by `goJoin`:
the part after the final separator. -/
def pathBase (p : String) : String :=
  String.mk (pathBaseAux p.data [])

/-- One entry returned by `os.ReadDir`: its name and whether it is a
directory. -/
structure DirEntry where
  name : String
  isDir : Bool
  deriving DecidableEq

/-- `scanner.ListTopLevelDirs`.  The `os.ReadDir` outcome is passed in:
`none` is a read error (returned unchanged), `some entries` the listing
in filesystem order. -/
def ListTopLevelDirs (path : String) (readDirRes : Option (List DirEntry))
    (ignoreDirs : List String) (includeHidden : Bool) :
    Option (GoSlice String) :=
  match readDirRes with
  | none => none
  | some entries =>
    some (entries.foldl
      (fun dirs e =>
        if !e.isDir then dirs
        else if !includeHidden && startsWithDot e.name then dirs
        else if ignoreDirs.contains e.name then dirs
        else goAppend dirs (goJoin path e.name))
      (none : GoSlice String))

/-- The filter an entry must pass in `ListTopLevelDirs`. -/
def entryKept (ignoreDirs : List String) (includeHidden : Bool)
    (e : DirEntry) : Bool :=
  e.isDir && (includeHidden || !startsWithDot e.name) &&
    !ignoreDirs.contains e.name

theorem listTopLevelDirs_foldl (path : String) (ignoreDirs : List String)
    (includeHidden : Bool) (entries : List DirEntry) (acc : GoSlice String) :
    sliceList (entries.foldl
      (fun dirs e =>
        if !e.isDir then dirs
        else if !includeHidden && startsWithDot e.name then dirs
        else if ignoreDirs.contains e.name then dirs
        else goAppend dirs (goJoin path e.name)) acc) =
    sliceList acc ++
      (entries.filter (entryKept ignoreDirs includeHidden)).map
        (fun e => goJoin path e.name) := by
  induction entries generalizing acc with
  | nil => simp
  | cons e rest ih =>
    simp only [List.foldl_cons, List.filter_cons, entryKept]
    by_cases hdir : e.isDir <;>
      by_cases hhid : (includeHidden || !startsWithDot e.name) = true <;>
        by_cases hign : ignoreDirs.contains e.name <;>
          (try cases hhid' : includeHidden) <;>
            simp_all [ih, goAppend, sliceList]

/-- Characterisation of `ListTopLevelDirs` on a successful read: the
kept entries, filtered in order and joined to the root. -/
theorem listTopLevelDirs_eq (path : String) (entries : List DirEntry)
    (ignoreDirs : List String) (includeHidden : Bool) (sl : GoSlice String)
    (h : ListTopLevelDirs path (some entries) ignoreDirs includeHidden =
      some sl) :
    sliceList sl =
      (entries.filter (entryKept ignoreDirs includeHidden)).map
        (fun e => goJoin path e.name) := by
  have h' := h
  simp only [ListTopLevelDirs, Option.some.injEq] at h'
  subst h'
  simpa using listTopLevelDirs_foldl path ignoreDirs includeHidden entries none

/-! ## Repository metadata extractor (`CollectGitMetadata`) -/

/-- One entry of the go-git `Status` map, in iteration order: the file
path and the two single-character status codes (`Staging`, `Worktree`).
go-git's `Unmodified` code is the space character. -/
structure StatusEntry where
  file : String
  staging : Char
  worktree : Char
  deriving DecidableEq

/-- One remote of the repository configuration: its name and its
configured URLs, as returned by `remote.Config()`. -/
structure RemoteCfg where
  name : String
  urls : List String
  deriving DecidableEq

/-- What the go-git queries of `CollectGitMetadata` return for one
repository.  Each `none` layer is the corresponding call failing:
`remotes = none` is a `repo.Remotes()` error, `headShort = none` a
`repo.Head()` error, `status = none` a `repo.Worktree()` error and
`status = some none` a `worktree.Status()` error. -/
structure RepoData where
  remotes : Option (List RemoteCfg)
  headShort : Option String
  status : Option (Option (List StatusEntry))
  deriving DecidableEq

/-- A directory as seen by `git.PlainOpen`: either not openable as a
repository, or a repository with the query results above. -/
inductive RepoView where
  | notRepo
  | repo (d : RepoData)
  deriving DecidableEq

/-- `scanner.GitMetadata`. -/
structure GitMetadata where
  IsGitRepo : Bool
  RemoteURL : String := ""
  CurrentBranch : String := ""
  HasUncommitted : Bool := false
  StatusSummary : String := ""
  deriving DecidableEq

/-- The remote-URL loop of `CollectGitMetadata`: the first remote named
"origin" that has at least one URL contributes its first URL, else the
empty string. -/
def originURL : List RemoteCfg → String
  | [] => ""
  | r :: rest =>
    if r.name = "origin" then
      match r.urls with
      | u :: _ => u
      | [] => originURL rest
    else originURL rest

/-- The remote-URL selection of `CollectGitMetadata`: the origin loop,
then — if the field is still empty — the first URL of `remotes[0]`. -/
def remoteURLFromRemotes (remotes : List RemoteCfg) : String :=
  let fromOrigin := originURL remotes
  if fromOrigin = "" then
    match remotes with
    | [] => ""
    | r :: _ =>
      match r.urls with
      | [] => ""
      | u :: _ => u
  else fromOrigin

/-- `status.IsClean()` of go-git: every entry unmodified in both index
and worktree. -/
def statusIsClean (entries : List StatusEntry) : Bool :=
  entries.all fun e => e.staging == ' ' && e.worktree == ' '

/-- One line of the status summary:
`fmt.Sprintf("%s%s %s", stagingCode, worktreeCode, file)`. -/
def fmtStatusLine (e : StatusEntry) : String :=
  String.mk [e.staging] ++ String.mk [e.worktree] ++ " " ++ e.file

/-- The dirty branch of the summary builder: the first five entries of
the status map formatted and joined by "; ", plus the overflow suffix
when more than five files exist.  (The `statusLines` empty fallback of
the Go code is kept although a dirty status map is never empty.) -/
def dirtyStatusSummary (entries : List StatusEntry) : String :=
  let statusLines := (entries.take 5).map fmtStatusLine
  if statusLines.isEmpty then "clean"
  else
    let s := stringsJoin "; " statusLines
    if entries.length > 5 then
      s ++ " ... (" ++ toString (entries.length - 5) ++ " more)"
    else s

/-- `scanner.CollectGitMetadata`: metadata for one directory plus the
returned Go error (modelled as `Option String`). -/
def CollectGitMetadata (v : RepoView) : GitMetadata × Option String :=
  match v with
  | .notRepo => ({ IsGitRepo := false }, none)
  | .repo d =>
    let remoteURL :=
      match d.remotes with
      | none => ""
      | some rs => remoteURLFromRemotes rs
    let branch :=
      match d.headShort with
      | none => ""
      | some b => b
    let hasStatus :=
      match d.status with
      | some (some entries) =>
        if statusIsClean entries then (false, "clean")
        else (true, dirtyStatusSummary entries)
      | _ => (false, "")
    ({ IsGitRepo := true, RemoteURL := remoteURL, CurrentBranch := branch,
       HasUncommitted := hasStatus.1, StatusSummary := hasStatus.2 }, none)

/-- Helper shared by several claims: `CollectGitMetadata` never returns
an error. -/
theorem collectGitMetadata_err_none (v : RepoView) :
    (CollectGitMetadata v).2 = none := by
  cases v <;> rfl

/-! ## Scan orchestrator (`ScanDirectoriesWithMetadata`) -/

/-- `scanner.DirectoryInfo`; the `*GitMetadata` pointer is `Option`. -/
structure DirectoryInfo where
  Path : String
  GitMetadata : Option GitMetadata := none
  deriving DecidableEq

/-- One invocation of the `ProgressCallback`. -/
structure ProgressEvent where
  current : Nat
  total : Nat
  message : String
  deriving DecidableEq

/-- The per-candidate loop of `ScanDirectoriesWithMetadata`: builds the
`DirectoryInfo` list and the callback events, in program order.  The
repository view of each path comes from `env`. -/
def scanLoopMeta (env : String → RepoView) (total : Nat) :
    Nat → List String → List DirectoryInfo × List ProgressEvent
  | _, [] => ([], [])
  | i, dir :: rest =>
    let dirName := pathBase dir
    let evBefore : ProgressEvent := ⟨i, total, "Scanning: " ++ dirName⟩
    let res := CollectGitMetadata (env dir)
    let step : DirectoryInfo × ProgressEvent :=
      match res.2 with
      | some _ =>
        (⟨dir, none⟩,
         ⟨i + 1, total, "Completed: " ++ dirName ++ " (metadata error)"⟩)
      | none => (⟨dir, some res.1⟩, ⟨i + 1, total, "Completed: " ++ dirName⟩)
    let tail := scanLoopMeta env total (i + 1) rest
    (step.1 :: tail.1, evBefore :: step.2 :: tail.2)

/-- `scanner.ScanDirectoriesWithMetadata`: enumerate, announce the
total, then extract each candidate with a progress event before and
after.  `none` is the enumeration error propagated to the caller.  The
returned slice is `make`-allocated, hence non-nil. -/
def ScanDirectoriesWithMetadata (path : String)
    (readDirRes : Option (List DirEntry)) (ignoreDirs : List String)
    (includeHidden : Bool) (env : String → RepoView) :
    Option (GoSlice DirectoryInfo × List ProgressEvent) :=
  match ListTopLevelDirs path readDirRes ignoreDirs includeHidden with
  | none => none
  | some dirsSlice =>
    let dirs := sliceList dirsSlice
    let total := dirs.length
    let r := scanLoopMeta env total 0 dirs
    some (some r.1,
      ⟨0, total, "Found " ++ toString total ++ " directories to scan"⟩ ::
        r.2)

/-- The event stream the scan loop is expected to produce: for the
candidate at offset `i`, "Scanning: base" with `current = i` directly
before its extraction and "Completed: base" with `current = i + 1`
directly after it. -/
def expectedEvents (total : Nat) : Nat → List String → List ProgressEvent
  | _, [] => []
  | i, dir :: rest =>
    ⟨i, total, "Scanning: " ++ pathBase dir⟩ ::
      ⟨i + 1, total, "Completed: " ++ pathBase dir⟩ ::
        expectedEvents total (i + 1) rest

theorem scanLoopMeta_events (env : String → RepoView) (total i : Nat)
    (dirs : List String) :
    (scanLoopMeta env total i dirs).2 = expectedEvents total i dirs := by
  induction dirs generalizing i with
  | nil => rfl
  | cons dir rest ih =>
    simp [scanLoopMeta, expectedEvents, collectGitMetadata_err_none, ih]

theorem scanLoopMeta_infos (env : String → RepoView) (total i : Nat)
    (dirs : List String) :
    (scanLoopMeta env total i dirs).1 =
      dirs.map fun dir => ⟨dir, some (CollectGitMetadata (env dir)).1⟩ := by
  induction dirs generalizing i with
  | nil => rfl
  | cons dir rest ih =>
    simp [scanLoopMeta, collectGitMetadata_err_none, ih]

/-! ## Result cache (`internal/cache`) -/

/-- JSON value tree: the result of `encoding/json` marshalling, before
text rendering (render/parse of well-formed trees is inverse and is not
re-modelled). -/
inductive Jval where
  | str (s : String)
  | num (n : Int)
  | bool (b : Bool)
  | arr (elems : List Jval)
  | obj (fields : List (String × Jval))
  | null

/-- First-match association lookup, used for JSON object fields and for
the keyed file store. -/
def assocLookup {α : Type} : List (String × α) → String → Option α
  | [], _ => none
  | (k, v) :: rest, key => if k = key then some v else assocLookup rest key

/-- Field access on a JSON object. -/
def jvalField (j : Jval) (key : String) : Option Jval :=
  match j with
  | .obj fields => assocLookup fields key
  | _ => none

/-- `cache.ScanResult`.  `ScannedAt` is the instant as an abstract tick
count (the RFC3339 rendering is not re-modelled; the claims compare the
other fields). -/
structure ScanResult where
  WorkspacePath : String
  ScannedAt : Nat
  Directories : GoSlice String
  Count : Nat
  DirectoryInfos : GoSlice DirectoryInfo
  deriving DecidableEq

/-- Marshalling of `GitMetadata`: `is_git_repo` always, the other
fields carry `omitempty`. -/
def encodeGitMetadata (m : GitMetadata) : Jval :=
  .obj (("is_git_repo", .bool m.IsGitRepo) ::
    ((if m.RemoteURL = "" then [] else [("remote_url", .str m.RemoteURL)]) ++
     (if m.CurrentBranch = "" then []
      else [("current_branch", .str m.CurrentBranch)]) ++
     (if m.HasUncommitted then [("has_uncommitted", .bool m.HasUncommitted)]
      else []) ++
     (if m.StatusSummary = "" then []
      else [("status_summary", .str m.StatusSummary)])))

/-- Marshalling of `DirectoryInfo`: the nil metadata pointer is omitted
(`omitempty`). -/
def encodeDirectoryInfo (info : DirectoryInfo) : Jval :=
  .obj (("path", .str info.Path) ::
    (match info.GitMetadata with
     | none => []
     | some m => [("git_metadata", encodeGitMetadata m)]))

/-- Marshalling of a Go slice field without `omitempty`: nil marshals
to `null`, non-nil to an array. -/
def encodeSlice {α : Type} (f : α → Jval) : GoSlice α → Jval
  | none => .null
  | some l => .arr (l.map f)

/-- Marshalling of `cache.ScanResult`, field for field in struct
order. -/
def encodeScanResult (r : ScanResult) : Jval :=
  .obj [("workspace_path", .str r.WorkspacePath),
        ("scanned_at", .num r.ScannedAt),
        ("directories", encodeSlice .str r.Directories),
        ("count", .num r.Count),
        ("directory_infos", encodeSlice encodeDirectoryInfo r.DirectoryInfos)]

/-- Unmarshalling of a string field: missing means the zero value. -/
def jStrD (fields : List (String × Jval)) (key : String) : Option String :=
  match assocLookup fields key with
  | none => some ""
  | some (.str s) => some s
  | some _ => none

/-- Unmarshalling of a bool field: missing means the zero value. -/
def jBoolD (fields : List (String × Jval)) (key : String) : Option Bool :=
  match assocLookup fields key with
  | none => some false
  | some (.bool b) => some b
  | some _ => none

/-- Unmarshalling of a numeric field: missing means the zero value. -/
def jNatD (fields : List (String × Jval)) (key : String) : Option Nat :=
  match assocLookup fields key with
  | none => some 0
  | some (.num n) => some n.toNat
  | some _ => none

/-- Element-wise unmarshalling of a JSON array. -/
def decodeArr {α : Type} (f : Jval → Option α) : List Jval → Option (List α)
  | [] => some []
  | j :: rest =>
    match f j, decodeArr f rest with
    | some a, some l => some (a :: l)
    | _, _ => none

/-- Unmarshalling of a slice field: missing or `null` give the nil
slice. -/
def jSliceD {α : Type} (f : Jval → Option α) (fields : List (String × Jval))
    (key : String) : Option (GoSlice α) :=
  match assocLookup fields key with
  | none => some none
  | some .null => some none
  | some (.arr elems) => (decodeArr f elems).map some
  | some _ => none

def decodeJStr : Jval → Option String
  | .str s => some s
  | _ => none

def decodeGitMetadata : Jval → Option GitMetadata
  | .obj fields => do
    let isRepo ← jBoolD fields "is_git_repo"
    let remote ← jStrD fields "remote_url"
    let branch ← jStrD fields "current_branch"
    let uncommitted ← jBoolD fields "has_uncommitted"
    let summary ← jStrD fields "status_summary"
    some ⟨isRepo, remote, branch, uncommitted, summary⟩
  | _ => none

def decodeDirectoryInfo : Jval → Option DirectoryInfo
  | .obj fields => do
    let path ← jStrD fields "path"
    let gm ←
      match assocLookup fields "git_metadata" with
      | none => some (none : Option GitMetadata)
      | some .null => some none
      | some j => (decodeGitMetadata j).map some
    some ⟨path, gm⟩
  | _ => none

/-- Unmarshalling of `cache.ScanResult`. -/
def decodeScanResult : Jval → Option ScanResult
  | .obj fields => do
    let ws ← jStrD fields "workspace_path"
    let at' ← jNatD fields "scanned_at"
    let dirs ← jSliceD decodeJStr fields "directories"
    let count ← jNatD fields "count"
    let infos ← jSliceD decodeDirectoryInfo fields "directory_infos"
    some ⟨ws, at', dirs, count, infos⟩
  | _ => none

/-! ### Cache key derivation: SHA-256 of the workspace path -/

/-- 32-bit right rotation on `Nat` values below `2 ^ 32`. -/
def rotr32 (x n : Nat) : Nat :=
  ((x >>> n) ||| (x <<< (32 - n))) % 4294967296

/-- The SHA-256 round constants (decimal rendering of the standard
table). -/
def shaK : List Nat :=
  [1116352408, 1899447441, 3049323471, 3921009573, 961987163,
   1508970993, 2453635748, 2870763221, 3624381080, 310598401,
   607225278, 1426881987, 1925078388, 2162078206, 2614888103,
   3248222580, 3835390401, 4022224774, 264347078, 604807628,
   770255983, 1249150122, 1555081692, 1996064986, 2554220882,
   2821834349, 2952996808, 3210313671, 3336571891, 3584528711,
   113926993, 338241895, 666307205, 773529912, 1294757372,
   1396182291, 1695183700, 1986661051, 2177026350, 2456956037,
   2730485921, 2820302411, 3259730800, 3345764771, 3516065817,
   3600352804, 4094571909, 275423344, 430227734, 506948616,
   659060556, 883997877, 958139571, 1322822218, 1537002063,
   1747873779, 1955562222, 2024104815, 2227730452, 2361852424,
   2428436474, 2756734187, 3204031479, 3329325298]

/-- SHA-256 padding: a `0x80` byte, zeros to 56 mod 64, then the bit
length over eight big-endian bytes. -/
def sha256Pad (msg : List Nat) : List Nat :=
  let len := msg.length
  let zeros := (119 - len % 64) % 64
  msg ++ [128] ++ List.replicate zeros 0 ++
    ((List.range 8).map fun i => ((8 * len) >>> (8 * (7 - i))) % 256)

/-- Four big-endian bytes to one 32-bit word, over the whole list. -/
def bytesToWords : List Nat → List Nat
  | b1 :: b2 :: b3 :: b4 :: rest =>
    (((b1 * 256 + b2) * 256 + b3) * 256 + b4) :: bytesToWords rest
  | _ => []

/-- Split a word list into 16-word blocks. -/
def chunk16 : List Nat → List (List Nat)
  | [] => []
  | w :: rest => ((w :: rest).take 16) :: chunk16 ((w :: rest).drop 16)
  termination_by l => l.length
  decreasing_by simp; omega

/-- One step of the message-schedule extension. -/
def schedStep (w : List Nat) : Nat :=
  let n := w.length
  let w2 := w.getD (n - 2) 0
  let w7 := w.getD (n - 7) 0
  let w15 := w.getD (n - 15) 0
  let w16 := w.getD (n - 16) 0
  let s0 := rotr32 w15 7 ^^^ rotr32 w15 18 ^^^ (w15 >>> 3)
  let s1 := rotr32 w2 17 ^^^ rotr32 w2 19 ^^^ (w2 >>> 10)
  (w16 + s0 + w7 + s1) % 4294967296

/-- The 64-word message schedule of one block. -/
def schedule (block : List Nat) : List Nat :=
  (List.range 48).foldl (fun w _ => w ++ [schedStep w]) block

/-- The eight 32-bit working variables. -/
structure H8 where
  a : Nat
  b : Nat
  c : Nat
  d : Nat
  e : Nat
  f : Nat
  g : Nat
  h : Nat

/-- One SHA-256 compression round for a constant/schedule pair. -/
def shaRound (st : H8) (kw : Nat × Nat) : H8 :=
  let bigS1 := rotr32 st.e 6 ^^^ rotr32 st.e 11 ^^^ rotr32 st.e 25
  let ch := (st.e &&& st.f) ^^^ ((st.e ^^^ 4294967295) &&& st.g)
  let temp1 := (st.h + bigS1 + ch + kw.1 + kw.2) % 4294967296
  let bigS0 := rotr32 st.a 2 ^^^ rotr32 st.a 13 ^^^ rotr32 st.a 22
  let maj := (st.a &&& st.b) ^^^ (st.a &&& st.c) ^^^ (st.b &&& st.c)
  let temp2 := (bigS0 + maj) % 4294967296
  ⟨(temp1 + temp2) % 4294967296, st.a, st.b, st.c,
   (st.d + temp1) % 4294967296, st.e, st.f, st.g⟩

/-- Compression of one 16-word block into the running hash value. -/
def processBlock (st : H8) (block : List Nat) : H8 :=
  let w := schedule block
  let r := (shaK.zip w).foldl shaRound st
  ⟨(st.a + r.a) % 4294967296, (st.b + r.b) % 4294967296,
   (st.c + r.c) % 4294967296, (st.d + r.d) % 4294967296,
   (st.e + r.e) % 4294967296, (st.f + r.f) % 4294967296,
   (st.g + r.g) % 4294967296, (st.h + r.h) % 4294967296⟩

def hexDigitChar (n : Nat) : Char :=
  if n < 10 then Char.ofNat (48 + n) else Char.ofNat (87 + n)

/-- Lowercase hexadecimal rendering of one 32-bit word. -/
def wordHex (w : Nat) : List Char :=
  (List.range 8).map fun i => hexDigitChar ((w >>> (4 * (7 - i))) % 16)

/-- `hex.EncodeToString(sha256.Sum256(bytes))` for the UTF-8 bytes of a
string. -/
def sha256hex (s : String) : String :=
  let bytes := s.toUTF8.toList.map fun b => b.toNat
  let blocks := chunk16 (bytesToWords (sha256Pad bytes))
  let st := blocks.foldl processBlock
    ⟨1779033703, 3144134277, 1013904242, 2773480762,
     1359893119, 2600822924, 528734635, 1541459225⟩
  String.mk (([st.a, st.b, st.c, st.d, st.e, st.f, st.g, st.h].map
    wordHex).flatten)

/-- `cache.Cache`: the resolved cache directory. -/
structure Cache where
  cacheDir : String
  deriving DecidableEq

/-- `cache.getCacheFilePath`: `scan_<first 16 hex chars of the SHA-256
of the workspace path>.json` inside the cache directory. -/
def getCacheFilePath (c : Cache) (workspacePath : String) : String :=
  c.cacheDir ++ "/" ++ ("scan_" ++ (sha256hex workspacePath).take 16 ++
    ".json")

/-- The on-disk store: newest-first association list from file path to
marshalled content. -/
abbrev CacheFS := List (String × Jval)

/-- The `ScanResult` value built by `SaveScanResultWithMetadata`:
the backward-compatible flat path list is `make`-allocated from the
records, `Count` is their number, `ScannedAt` the current instant. -/
def buildScanResult (workspacePath : String) (now : Nat)
    (directoryInfos : GoSlice DirectoryInfo) : ScanResult :=
  { WorkspacePath := workspacePath,
    ScannedAt := now,
    Directories := some ((sliceList directoryInfos).map DirectoryInfo.Path),
    Count := sliceLen directoryInfos,
    DirectoryInfos := directoryInfos }

/-- `cache.SaveScanResultWithMetadata`: marshal the built result and
write it to the key derived from the workspace path (full overwrite). -/
def SaveScanResultWithMetadata (c : Cache) (workspacePath : String)
    (directoryInfos : GoSlice DirectoryInfo) (now : Nat) (fs : CacheFS) :
    CacheFS :=
  (getCacheFilePath c workspacePath,
    encodeScanResult (buildScanResult workspacePath now directoryInfos)) :: fs

/-- `cache.SaveScanResult` (deprecated): wraps the paths into records
and delegates. -/
def SaveScanResult (c : Cache) (workspacePath : String)
    (directories : GoSlice String) (now : Nat) (fs : CacheFS) : CacheFS :=
  SaveScanResultWithMetadata c workspacePath
    (some ((sliceList directories).map fun dir => ⟨dir, none⟩)) now fs

/-- `cache.LoadScanResult`: read the file at the derived key and
unmarshal it; `none` covers the missing-file and decode errors. -/
def LoadScanResult (c : Cache) (workspacePath : String) (fs : CacheFS) :
    Option ScanResult :=
  match assocLookup fs (getCacheFilePath c workspacePath) with
  | none => none
  | some j => decodeScanResult j

/-! ## Cancellable scan (`TUIApp.performScanWithProgress`)

The cancellation context is a predicate `cancel : Nat → Bool` over an
abstract clock that advances by one at every evaluation of
`ctx.Err()`; a once-only signal is a monotone predicate.  Every
`updateProgress` call contains one such evaluation (it drops its
message when the context is already cancelled), and the loop performs
its explicit boundary checks in program order. -/

/-- The worker state: the clock, the emitted progress lines, the
accumulated records (`var dirInfos []DirectoryInfo`, a nil slice until
first append), the two counters, and — for specification purposes —
the list of directories whose extraction actually ran. -/
structure PState where
  t : Nat
  events : List String
  dirInfos : GoSlice DirectoryInfo
  repoCount : Nat
  uncommittedCount : Nat
  extracted : List String
  deriving DecidableEq

/-- `updateProgress`: evaluate `ctx.Err()`; if cancelled drop the
message, otherwise emit it. -/
def updateProgress (cancel : Nat → Bool) (st : PState) (msg : String) :
    PState :=
  if cancel st.t then { st with t := st.t + 1 }
  else { st with t := st.t + 1, events := st.events ++ [msg] }

/-- One explicit `ctx.Err()` evaluation. -/
def tick (st : PState) : PState :=
  { st with t := st.t + 1 }

/-- The candidate loop of `performScanWithProgress`.  Returns the final
state and whether the loop exited through a cancellation check. -/
def psLoop (cancel : Nat → Bool) (env : String → RepoView) (ws : String)
    (ignoreDirs : List String) (includeHidden : Bool) :
    List DirEntry → PState → PState × Bool
  | [], st => (st, false)
  | e :: rest, st =>
    if cancel st.t then
      (updateProgress cancel (tick st) "[yellow]Scan canceled[white]", true)
    else
      let st1 := tick st
      if !e.isDir then psLoop cancel env ws ignoreDirs includeHidden rest st1
      else if !includeHidden && startsWithDot e.name then
        psLoop cancel env ws ignoreDirs includeHidden rest st1
      else if ignoreDirs.contains e.name then
        psLoop cancel env ws ignoreDirs includeHidden rest st1
      else
        let dirPath := goJoin ws e.name
        let st2 := updateProgress cancel st1
          ("[cyan]Scanning " ++ e.name ++ "[white]")
        if cancel st2.t then
          (updateProgress cancel (tick st2) "[yellow]Scan canceled[white]",
           true)
        else
          let st3 := tick st2
          let res := CollectGitMetadata (env dirPath)
          let gm :=
            match res.2 with
            | some _ => ({ IsGitRepo := false } : GitMetadata)
            | none => res.1
          let st4 := { st3 with extracted := st3.extracted ++ [dirPath] }
          if cancel st4.t then
            (updateProgress cancel (tick st4) "[yellow]Scan canceled[white]",
             true)
          else
            let st5 := tick st4
            let st6 :=
              { st5 with
                dirInfos := goAppend st5.dirInfos ⟨dirPath, some gm⟩,
                repoCount :=
                  st5.repoCount + (if gm.IsGitRepo then 1 else 0),
                uncommittedCount :=
                  st5.uncommittedCount +
                    (if gm.IsGitRepo && gm.HasUncommitted then 1 else 0) }
            let st7 := updateProgress cancel st6
              ("[green]Completed scan of " ++ e.name ++ "[white]")
            let st8 := updateProgress cancel st7 ""
            psLoop cancel env ws ignoreDirs includeHidden rest st8

/-- The state after the two opening `updateProgress` calls. -/
def psInit (cancel : Nat → Bool) (ws : String) : PState :=
  updateProgress cancel
    (updateProgress cancel ⟨0, [], none, 0, 0, []⟩
      ("[yellow]Scanning workspace: " ++ ws ++ "[white]"))
    ""

/-- The final summary block written after a completed scan. -/
def summaryText (totalDirs repoCount uncommittedCount : Nat) : String :=
  "[green]═══════════════════════════════════════[white]\n" ++
  "[green]           Scan Summary[white]\n" ++
  "[green]═══════════════════════════════════════[white]\n\n" ++
  "  Directories scanned: [yellow]" ++ toString totalDirs ++ "[white]\n" ++
  "  Git repositories:    [cyan]" ++ toString repoCount ++ "[white]\n" ++
  "  With uncommitted:    [red]" ++ toString uncommittedCount ++
  "[white]\n" ++
  "\n[green]═══════════════════════════════════════[white]\n" ++
  "\n[dim]Press ESC to return to main view[white]"

/-- Outcome of one `performScanWithProgress` run. -/
structure ScanRun where
  events : List String
  canceled : Bool
  readFailed : Bool
  wroteCache : Bool
  fsOut : CacheFS
  extracted : List String

/-- `TUIApp.performScanWithProgress`: announce the workspace, read the
root, loop over the candidates with boundary cancellation checks, then
— unless cancelled — write the cache and print the summary.
`cacheInst` is the `cache.New()` outcome. -/
def performScanWithProgress (cancel : Nat → Bool) (env : String → RepoView)
    (ws : String) (readDirRes : Option (List DirEntry))
    (ignoreDirs : List String) (includeHidden : Bool)
    (cacheInst : Option Cache) (now : Nat) (fs : CacheFS) : ScanRun :=
  let st := psInit cancel ws
  match readDirRes with
  | none =>
    let st := updateProgress cancel st "[red]Error reading directory[white]"
    ⟨st.events, false, true, false, fs, st.extracted⟩
  | some entries =>
    let r := psLoop cancel env ws ignoreDirs includeHidden entries st
    if r.2 then ⟨r.1.events, true, false, false, fs, r.1.extracted⟩
    else
      let st := r.1
      if cancel st.t then
        let st := updateProgress cancel (tick st)
          "[yellow]Scan canceled[white]"
        ⟨st.events, true, false, false, fs, st.extracted⟩
      else
        let st := tick st
        let st := updateProgress cancel st
          "[yellow]Saving results to cache...[white]"
        let step :=
          match cacheInst with
          | none => (st, fs, false)
          | some c =>
            (updateProgress cancel st "[green]Results saved to cache[white]",
             SaveScanResultWithMetadata c ws st.dirInfos now fs, true)
        let st := updateProgress cancel step.1 ""
        if cancel st.t then
          ⟨st.events, true, false, step.2.2, step.2.1, st.extracted⟩
        else
          let st := tick st
          let st := updateProgress cancel st
            (summaryText (sliceLen st.dirInfos) st.repoCount
              st.uncommittedCount)
          ⟨st.events, false, false, step.2.2, step.2.1, st.extracted⟩

/-- A once-only cancellation signal: once observed set, it stays set. -/
def CancelMono (cancel : Nat → Bool) : Prop :=
  ∀ i j : Nat, i ≤ j → cancel i = true → cancel j = true

theorem psLoop_append (cancel : Nat → Bool) (env : String → RepoView)
    (ws : String) (ignoreDirs : List String) (includeHidden : Bool)
    (l1 l2 : List DirEntry) (st : PState) :
    psLoop cancel env ws ignoreDirs includeHidden (l1 ++ l2) st =
      (let r := psLoop cancel env ws ignoreDirs includeHidden l1 st
       if r.2 then r
       else psLoop cancel env ws ignoreDirs includeHidden l2 r.1) := by
  induction l1 generalizing st with
  | nil => simp [psLoop]
  | cons e rest ih =>
    by_cases hc : cancel st.t
    · simp [psLoop, hc]
    · simp only [List.cons_append, psLoop, hc, Bool.false_eq_true,
        if_false]
      by_cases hdir : e.isDir <;>
        by_cases hhid : (!includeHidden && startsWithDot e.name) = true <;>
          by_cases hign : ignoreDirs.contains e.name <;>
            simp only [hdir, hhid, hign, Bool.not_true, Bool.not_false,
              Bool.true_eq_false, if_true, if_false, ih] <;>
              (try split_ifs) <;>
                simp_all [ih, collectGitMetadata_err_none]

/-- If the signal is already set at a candidate boundary, the loop
cancels there: with a monotone signal the "Scan canceled" message is
itself dropped, so nothing changes except the clock. -/
theorem psLoop_cancelled (cancel : Nat → Bool) (env : String → RepoView)
    (ws : String) (ignoreDirs : List String) (includeHidden : Bool)
    (e : DirEntry) (rest : List DirEntry) (st : PState)
    (hmono : CancelMono cancel) (hc : cancel st.t = true) :
    psLoop cancel env ws ignoreDirs includeHidden (e :: rest) st =
      ({ st with t := st.t + 2 }, true) := by
  have h1 : cancel (st.t + 1) = true :=
    hmono st.t (st.t + 1) (Nat.le_succ _) hc
  simp [psLoop, hc, updateProgress, tick, h1]

/-! ## Claims -/

theorem fmtStatusLine_data (e : StatusEntry) :
    (fmtStatusLine e).data =
      e.staging :: e.worktree :: ' ' :: e.file.data := by
  simp [fmtStatusLine, String.data_append]

theorem stringsJoin_cons (sep a : String) (rest : List String) :
    ∃ t, stringsJoin sep (a :: rest) = a ++ t := by
  cases rest with
  | nil => exact ⟨"", (String.append_empty a).symm⟩
  | cons b l =>
    exact ⟨sep ++ stringsJoin sep (b :: l), String.append_assoc ..⟩

/-- A dirty status map is never empty, and then the summary starts with
the first formatted line: two code characters and a space. -/
theorem dirtySummary_data (e : StatusEntry) (rest : List StatusEntry) :
    ∃ l, (dirtyStatusSummary (e :: rest)).data =
      e.staging :: e.worktree :: ' ' :: l := by
  unfold dirtyStatusSummary
  obtain ⟨t, ht⟩ :=
    stringsJoin_cons "; " (fmtStatusLine e) ((rest.take 4).map fmtStatusLine)
  simp only [List.take_succ_cons, List.map_cons, List.isEmpty_cons,
    Bool.false_eq_true, if_false, ht]
  split
  · refine ⟨e.file.data ++ (t ++ (" ... (" ++
      toString ((e :: rest).length - 5) ++ " more)")).data, ?_⟩
    simp [String.data_append, fmtStatusLine]
  · exact ⟨e.file.data ++ t.data,
      by simp [String.data_append, fmtStatusLine]⟩

theorem dirtySummary_ne (e : StatusEntry) (rest : List StatusEntry) :
    dirtyStatusSummary (e :: rest) ≠ "" ∧
      dirtyStatusSummary (e :: rest) ≠ "clean" := by
  obtain ⟨l, hl⟩ := dirtySummary_data e rest
  constructor <;> intro h <;> rw [congrArg String.data h] at hl <;>
    simp at hl

/-- C1.  When the directory is a repository and the worktree status
query succeeds, `HasUncommitted` is true exactly when `StatusSummary`
is neither empty nor "clean". -/
theorem c1_uncommitted_iff_summary (d : RepoData)
    (entries : List StatusEntry) (h : d.status = some (some entries)) :
    (CollectGitMetadata (RepoView.repo d)).1.HasUncommitted = true ↔
      ((CollectGitMetadata (RepoView.repo d)).1.StatusSummary ≠ "" ∧
       (CollectGitMetadata (RepoView.repo d)).1.StatusSummary ≠ "clean") := by
  simp only [CollectGitMetadata, h]
  by_cases hc : statusIsClean entries
  · simp [hc]
  · cases entries with
    | nil => simp [statusIsClean] at hc
    | cons e rest =>
      have := dirtySummary_ne e rest
      simp [hc, this.1, this.2]

/-- Witness for C1: a repository with one modified file. -/
theorem c1_witness :
    (CollectGitMetadata (RepoView.repo
      ⟨none, none, some (some [⟨"file.txt", 'M', 'M'⟩])⟩)).1.HasUncommitted
        = true ↔
      ((CollectGitMetadata (RepoView.repo
        ⟨none, none, some (some [⟨"file.txt", 'M', 'M'⟩])⟩)).1.StatusSummary
          ≠ "" ∧
       (CollectGitMetadata (RepoView.repo
        ⟨none, none, some (some [⟨"file.txt", 'M', 'M'⟩])⟩)).1.StatusSummary
          ≠ "clean") :=
  c1_uncommitted_iff_summary _ [⟨"file.txt", 'M', 'M'⟩] rfl

/-- C2.  With exactly 7 changed files the summary is the first five
formatted entries joined by "; " plus " ... (2 more)"; with 0 changed
files it is "clean" and `HasUncommitted` is false. -/
theorem c2_status_summary_format (d : RepoData)
    (entries : List StatusEntry) (h : d.status = some (some entries)) :
    (entries.length = 7 →
      (∀ e ∈ entries, ¬(e.staging = ' ' ∧ e.worktree = ' ')) →
      (CollectGitMetadata (RepoView.repo d)).1.StatusSummary =
        stringsJoin "; " ((entries.take 5).map fmtStatusLine) ++
          " ... (2 more)" ∧
      ((entries.take 5).map fmtStatusLine).length = 5) ∧
    (entries = [] →
      (CollectGitMetadata (RepoView.repo d)).1.StatusSummary = "clean" ∧
      (CollectGitMetadata (RepoView.repo d)).1.HasUncommitted = false) := by
  constructor
  · intro h7 hch
    have hlen : ((entries.take 5).map fmtStatusLine).length = 5 := by
      simp [h7]
    have hclean : statusIsClean entries = false := by
      cases entries with
      | nil => simp at h7
      | cons e rest =>
        have h1 := hch e (by simp)
        cases hsc : statusIsClean (e :: rest)
        · rfl
        · exfalso
          simp [statusIsClean] at hsc
          exact h1 ⟨hsc.1.1, hsc.1.2⟩
    have hne : ((entries.take 5).map fmtStatusLine).isEmpty = false := by
      cases hmap : (entries.take 5).map fmtStatusLine
      · rw [hmap] at hlen; simp at hlen
      · rfl
    refine ⟨?_, hlen⟩
    simp only [CollectGitMetadata, h, hclean, Bool.false_eq_true, if_false,
      dirtyStatusSummary, hne, h7]
    norm_num
    rw [String.append_assoc, String.append_assoc]
    congr 1
  · rintro rfl
    simp [CollectGitMetadata, h, statusIsClean]

/-- Witness for C2: a repository with 7 modified files, and one with an
empty status map. -/
theorem c2_witness :
    (CollectGitMetadata (RepoView.repo ⟨none, none, some (some
      [⟨"f1", 'M', 'M'⟩, ⟨"f2", 'M', 'M'⟩, ⟨"f3", 'M', 'M'⟩,
       ⟨"f4", 'M', 'M'⟩, ⟨"f5", 'M', 'M'⟩, ⟨"f6", 'M', 'M'⟩,
       ⟨"f7", 'M', 'M'⟩])⟩)).1.StatusSummary =
      "MM f1; MM f2; MM f3; MM f4; MM f5 ... (2 more)" ∧
    (CollectGitMetadata (RepoView.repo
      ⟨none, none, some (some [])⟩)).1.StatusSummary = "clean" ∧
    (CollectGitMetadata (RepoView.repo
      ⟨none, none, some (some [])⟩)).1.HasUncommitted = false := by
  refine ⟨?_, ?_, ?_⟩
  · have h := ((c2_status_summary_format ⟨none, none, some (some
      [⟨"f1", 'M', 'M'⟩, ⟨"f2", 'M', 'M'⟩, ⟨"f3", 'M', 'M'⟩,
       ⟨"f4", 'M', 'M'⟩, ⟨"f5", 'M', 'M'⟩, ⟨"f6", 'M', 'M'⟩,
       ⟨"f7", 'M', 'M'⟩])⟩ _ rfl).1 (by decide) (by decide)).1
    rw [h]; decide
  · exact ((c2_status_summary_format ⟨none, none, some (some [])⟩ []
      rfl).2 rfl).1
  · exact ((c2_status_summary_format ⟨none, none, some (some [])⟩ []
      rfl).2 rfl).2

/-- The remote-URL selection in the words of the spec (for comparison
with the code): origin's first configured URL if origin exists and has
at least one URL, else the first URL of the first other (non-origin)
remote that has one, else empty. -/
def specRemoteURL (remotes : List RemoteCfg) : String :=
  match remotes.find? (fun r => r.name == "origin" && !r.urls.isEmpty) with
  | some r => r.urls.headD ""
  | none =>
    match remotes.find? (fun r => r.name != "origin" && !r.urls.isEmpty) with
    | some r => r.urls.headD ""
    | none => ""

/-- Counterexample to C3 as stated: with remotes
`[upstream (no URLs), backup (one URL)]` the spec's rule picks backup's
URL, but the code's fallback only ever looks at `remotes[0]` and leaves
the field empty. -/
theorem c3_counterexample :
    (CollectGitMetadata (RepoView.repo
      ⟨some [⟨"upstream", []⟩, ⟨"backup", ["https://example.com/r.git"]⟩],
       none, none⟩)).1.RemoteURL = "" ∧
    specRemoteURL
      [⟨"upstream", []⟩, ⟨"backup", ["https://example.com/r.git"]⟩] =
      "https://example.com/r.git" ∧
    ("" : String) ≠ "https://example.com/r.git" := by
  refine ⟨rfl, rfl, by decide⟩

/-- The selection the code actually performs: origin's first URL when
some origin remote has one and that URL is non-empty, otherwise the
first URL of `remotes[0]` — whatever its name — when it has any,
otherwise empty. -/
def amendedRemoteURL (remotes : List RemoteCfg) : String :=
  let fromOrigin :=
    match remotes.find? (fun r => r.name == "origin" && !r.urls.isEmpty) with
    | some r => r.urls.headD ""
    | none => ""
  if fromOrigin = "" then
    match remotes with
    | [] => ""
    | r :: _ => r.urls.headD ""
  else fromOrigin

theorem originURL_eq_find (remotes : List RemoteCfg) :
    originURL remotes =
      (match remotes.find?
          (fun r => r.name == "origin" && !r.urls.isEmpty) with
       | some r => r.urls.headD ""
       | none => "") := by
  induction remotes with
  | nil => rfl
  | cons r rest ih =>
    by_cases hn : r.name = "origin"
    · cases hu : r.urls with
      | nil => simp [originURL, List.find?, hn, hu, ih]
      | cons u us => simp [originURL, List.find?, hn, hu]
    · have hb : (r.name == "origin") = false := by simp [hn]
      simp [originURL, List.find?, hn, hb, ih]

/-- C3 as amended.  The error is always nil; a remote-resolution
failure leaves the field empty; otherwise the field follows
`amendedRemoteURL` (origin first, then `remotes[0]` only). -/
theorem c3_remote_url (d : RepoData) :
    (CollectGitMetadata (RepoView.repo d)).2 = none ∧
    (d.remotes = none →
      (CollectGitMetadata (RepoView.repo d)).1.RemoteURL = "") ∧
    (∀ rs, d.remotes = some rs →
      (CollectGitMetadata (RepoView.repo d)).1.RemoteURL =
        amendedRemoteURL rs) := by
  refine ⟨rfl, ?_, ?_⟩
  · intro h; simp [CollectGitMetadata, h]
  · intro rs h
    simp only [CollectGitMetadata, h, remoteURLFromRemotes,
      amendedRemoteURL, originURL_eq_find]
    cases rs with
    | nil => rfl
    | cons r0 rest =>
      cases hf : (r0 :: rest).find?
          (fun r => r.name == "origin" && !r.urls.isEmpty) with
      | none => cases hu0 : r0.urls <;> simp [hf, hu0]
      | some r =>
        cases hu : r.urls <;> cases hu0 : r0.urls <;>
          simp [hf, hu, hu0]

/-- Witness for C3 (amended): an origin remote with a URL is picked. -/
theorem c3_witness :
    (CollectGitMetadata (RepoView.repo
      ⟨some [⟨"origin", ["git@h:o/r.git"]⟩], none, none⟩)).1.RemoteURL =
      amendedRemoteURL [⟨"origin", ["git@h:o/r.git"]⟩] ∧
    amendedRemoteURL [⟨"origin", ["git@h:o/r.git"]⟩] = "git@h:o/r.git" :=
  ⟨(c3_remote_url ⟨some [⟨"origin", ["git@h:o/r.git"]⟩], none, none⟩).2.2
    [⟨"origin", ["git@h:o/r.git"]⟩] rfl, by decide⟩

/-- C9.  `CollectGitMetadata` returns a nil error on every control
path: repository-open failure, remote failure, head failure and status
failure all degrade to field omissions. -/
theorem c9_collect_error_always_nil (v : RepoView) :
    (CollectGitMetadata v).2 = none :=
  collectGitMetadata_err_none v

/-- C10.  Every `ScanResult` built for a cache write keeps the
deprecated flat path list consistent with the record list: same count,
same length, and element-wise the record paths. -/
theorem c10_flat_paths_consistent (workspacePath : String) (now : Nat)
    (infos : GoSlice DirectoryInfo) :
    (buildScanResult workspacePath now infos).Count =
      (sliceList (buildScanResult workspacePath now infos).DirectoryInfos).length ∧
    (buildScanResult workspacePath now infos).Count =
      (sliceList (buildScanResult workspacePath now infos).Directories).length ∧
    sliceList (buildScanResult workspacePath now infos).Directories =
      (sliceList
        (buildScanResult workspacePath now infos).DirectoryInfos).map
        DirectoryInfo.Path := by
  simp [buildScanResult, sliceLen, sliceList]

/-- C6.  Whatever `ListTopLevelDirs` returns comes from a directory
entry that is not in the ignore set and is not hidden unless hidden
entries are included; files never contribute. -/
theorem c6_enumerator_filters (path : String) (entries : List DirEntry)
    (ignoreDirs : List String) (includeHidden : Bool) (sl : GoSlice String)
    (h : ListTopLevelDirs path (some entries) ignoreDirs includeHidden =
      some sl) :
    ∀ p ∈ sliceList sl, ∃ e ∈ entries, e.isDir = true ∧
      e.name ∉ ignoreDirs ∧
      (includeHidden = true ∨ startsWithDot e.name = false) ∧
      p = goJoin path e.name := by
  intro p hp
  rw [listTopLevelDirs_eq path entries ignoreDirs includeHidden sl h] at hp
  obtain ⟨e, he, hpe⟩ := List.mem_map.mp hp
  obtain ⟨hmem, hkept⟩ := List.mem_filter.mp he
  simp only [entryKept, Bool.and_eq_true, Bool.or_eq_true,
    Bool.not_eq_true'] at hkept
  refine ⟨e, hmem, hkept.1.1, ?_, ?_, hpe.symm⟩
  · simpa using hkept.2
  · rcases hkept.1.2 with h' | h'
    · exact Or.inl h'
    · exact Or.inr h'

/-- Witness for C6: a root with a file, a hidden directory, an ignored
directory and one eligible directory. -/
theorem c6_witness :
    ∃ e ∈ [(⟨"proj", true⟩ : DirEntry), ⟨".hid", true⟩,
      ⟨"node_modules", true⟩, ⟨"notes.txt", false⟩], e.isDir = true ∧
      e.name ∉ ["node_modules"] ∧
      (false = true ∨ startsWithDot e.name = false) ∧
      "/w/proj" = goJoin "/w" e.name :=
  c6_enumerator_filters "/w"
    [⟨"proj", true⟩, ⟨".hid", true⟩, ⟨"node_modules", true⟩,
     ⟨"notes.txt", false⟩] ["node_modules"] false (some ["/w/proj"])
    (by decide) "/w/proj" (by decide)

/-- C5.  A root whose enumeration keeps no subdirectory yields the
snapshot with zero records: the scan returns the non-nil empty record
slice and a single "Found 0" event, and the serialized cache entry
carries `count = 0` and a present, non-null empty `directory_infos`
array. -/
theorem c5_empty_workspace (path : String) (entries : List DirEntry)
    (ignoreDirs : List String) (includeHidden : Bool)
    (env : String → RepoView) (sl : GoSlice String)
    (h : ListTopLevelDirs path (some entries) ignoreDirs includeHidden =
      some sl)
    (hsl : sliceList sl = []) (c : Cache) (now : Nat) (fs : CacheFS) :
    ScanDirectoriesWithMetadata path (some entries) ignoreDirs
        includeHidden env =
      some (some [], [⟨0, 0, "Found 0 directories to scan"⟩]) ∧
    (buildScanResult path now (some [])).Count = 0 ∧
    jvalField (encodeScanResult (buildScanResult path now (some [])))
      "count" = some (.num 0) ∧
    jvalField (encodeScanResult (buildScanResult path now (some [])))
      "directory_infos" = some (.arr []) ∧
    assocLookup (SaveScanResultWithMetadata c path (some []) now fs)
        (getCacheFilePath c path) =
      some (encodeScanResult (buildScanResult path now (some []))) := by
  refine ⟨?_, ?_, ?_, ?_, ?_⟩
  · simp [ScanDirectoriesWithMetadata, h, hsl, scanLoopMeta]
    decide
  · simp [buildScanResult, sliceLen, sliceList]
  · simp [jvalField, encodeScanResult, buildScanResult, assocLookup,
      encodeSlice, sliceLen, sliceList]
  · simp [jvalField, encodeScanResult, buildScanResult, assocLookup,
      encodeSlice, sliceLen, sliceList]
  · simp [SaveScanResultWithMetadata, assocLookup]

/-- Witness for C5: a root containing only a file and a hidden
directory. -/
theorem c5_witness :
    ScanDirectoriesWithMetadata "/w"
        (some [⟨"notes.txt", false⟩, ⟨".hid", true⟩]) [] false
        (fun _ => RepoView.notRepo) =
      some (some [], [⟨0, 0, "Found 0 directories to scan"⟩]) ∧
    jvalField (encodeScanResult (buildScanResult "/w" 7 (some [])))
      "count" = some (.num 0) ∧
    jvalField (encodeScanResult (buildScanResult "/w" 7 (some [])))
      "directory_infos" = some (.arr []) := by
  have h := c5_empty_workspace "/w" [⟨"notes.txt", false⟩, ⟨".hid", true⟩]
    [] false (fun _ => RepoView.notRepo) none (by decide) (by decide)
    ⟨"/cache"⟩ 7 []
  exact ⟨h.1, h.2.2.1, h.2.2.2.1⟩

theorem decode_encode_gm (m : GitMetadata) :
    decodeGitMetadata (encodeGitMetadata m) = some m := by
  obtain ⟨ig, ru, cb, hu, ss⟩ := m
  by_cases h1 : ru = "" <;>
    by_cases h2 : cb = "" <;>
      cases hu <;>
        by_cases h4 : ss = "" <;>
          simp [encodeGitMetadata, decodeGitMetadata, jStrD, jBoolD,
            assocLookup, h1, h2, h4]

theorem decode_encode_di (info : DirectoryInfo) :
    decodeDirectoryInfo (encodeDirectoryInfo info) = some info := by
  obtain ⟨p, gm⟩ := info
  cases gm with
  | none =>
    simp [encodeDirectoryInfo, decodeDirectoryInfo, jStrD, assocLookup]
  | some m =>
    obtain ⟨fl, hfl⟩ : ∃ fl, encodeGitMetadata m = Jval.obj fl := ⟨_, rfl⟩
    have hdec : decodeGitMetadata (Jval.obj fl) = some m :=
      hfl ▸ decode_encode_gm m
    simp [encodeDirectoryInfo, decodeDirectoryInfo, jStrD, assocLookup,
      hfl, hdec]

theorem decodeArr_str (l : List String) :
    decodeArr decodeJStr (l.map Jval.str) = some l := by
  induction l with
  | nil => rfl
  | cons a rest ih => simp [decodeArr, decodeJStr, ih]

theorem decodeArr_info (l : List DirectoryInfo) :
    decodeArr decodeDirectoryInfo (l.map encodeDirectoryInfo) = some l := by
  induction l with
  | nil => rfl
  | cons a rest ih => simp [decodeArr, decode_encode_di, ih]

theorem decode_encode_scanResult (r : ScanResult) :
    decodeScanResult (encodeScanResult r) = some r := by
  obtain ⟨ws, at', dirs, cnt, infos⟩ := r
  cases dirs <;> cases infos <;>
    simp [encodeScanResult, decodeScanResult, jStrD, jNatD, jSliceD,
      assocLookup, encodeSlice, decodeArr_str, decodeArr_info]

/-- C4.  Saving a snapshot and loading it back for the same workspace
path restores the workspace path, the count and the ordered record
list (paths and git metadata) exactly. -/
theorem c4_save_load_roundtrip (c : Cache) (workspacePath : String)
    (directoryInfos : GoSlice DirectoryInfo) (now : Nat) (fs : CacheFS) :
    LoadScanResult c workspacePath
        (SaveScanResultWithMetadata c workspacePath directoryInfos now fs) =
      some (buildScanResult workspacePath now directoryInfos) ∧
    (buildScanResult workspacePath now directoryInfos).WorkspacePath =
      workspacePath ∧
    (buildScanResult workspacePath now directoryInfos).Count =
      sliceLen directoryInfos ∧
    (buildScanResult workspacePath now directoryInfos).DirectoryInfos =
      directoryInfos := by
  refine ⟨?_, rfl, rfl, rfl⟩
  simp [LoadScanResult, SaveScanResultWithMetadata, assocLookup,
    decode_encode_scanResult]

/-- Counterexample to C8 as stated: in a scan of the single candidate
directory `a`, the emitted status lines are "Scanning: a" and
"Completed: a" — no event carries "Scanning a" or
"Completed scan of a". -/
theorem c8_counterexample :
    ScanDirectoriesWithMetadata "/w" (some [⟨"a", true⟩]) [] false
        (fun _ => RepoView.notRepo) =
      some (some [⟨"/w/a", some { IsGitRepo := false }⟩],
        [⟨0, 1, "Found 1 directories to scan"⟩, ⟨0, 1, "Scanning: a"⟩,
         ⟨1, 1, "Completed: a"⟩]) ∧
    ([⟨0, 1, "Found 1 directories to scan"⟩, ⟨0, 1, "Scanning: a"⟩,
      (⟨1, 1, "Completed: a"⟩ : ProgressEvent)].all fun ev =>
        !(ev.message == "Scanning a") &&
          !(ev.message == "Completed scan of a")) = true := by
  exact ⟨by decide, by decide⟩

/-- C8 as amended.  For each candidate at offset `i`, the progress
message "Scanning: <base name>" (current = i) is emitted directly
before its extraction and "Completed: <base name>" (current = i + 1)
directly after it, in program order, after the initial "Found N" event
— the event stream equals `expectedEvents`. -/
theorem c8_scan_events (path : String) (entries : List DirEntry)
    (ignoreDirs : List String) (includeHidden : Bool)
    (env : String → RepoView) (sl : GoSlice String)
    (h : ListTopLevelDirs path (some entries) ignoreDirs includeHidden =
      some sl) :
    ∃ infos, ScanDirectoriesWithMetadata path (some entries) ignoreDirs
        includeHidden env =
      some (some infos,
        ⟨0, (sliceList sl).length,
          "Found " ++ toString (sliceList sl).length ++
            " directories to scan"⟩ ::
          expectedEvents (sliceList sl).length 0 (sliceList sl)) := by
  refine ⟨(scanLoopMeta env (sliceList sl).length 0 (sliceList sl)).1, ?_⟩
  simp [ScanDirectoriesWithMetadata, h, scanLoopMeta_events]

/-- Witness for C8 (amended): one candidate directory. -/
theorem c8_witness :
    ∃ infos, ScanDirectoriesWithMetadata "/w" (some [⟨"a", true⟩]) [] false
        (fun _ => RepoView.notRepo) =
      some (some infos,
        ⟨0, (sliceList (some ["/w/a"])).length,
          "Found " ++ toString (sliceList (some ["/w/a"])).length ++
            " directories to scan"⟩ ::
          expectedEvents (sliceList (some ["/w/a"])).length 0
            (sliceList (some ["/w/a"]))) :=
  c8_scan_events "/w" [⟨"a", true⟩] [] false (fun _ => RepoView.notRepo)
    (some ["/w/a"]) (by decide)

/-- C7.  If the cancellation signal is set after the candidates of
`pre` have been processed (and observed unset throughout `pre`), the
run over `pre ++ e :: post` cancels at the next candidate boundary:
no further extraction happens, the terminal outcome is cancelled, no
summary or completion output is emitted beyond the events of `pre`,
and no cache write is performed. -/
theorem c7_cancellation (cancel : Nat → Bool) (env : String → RepoView)
    (ws : String) (ignoreDirs : List String) (includeHidden : Bool)
    (pre post : List DirEntry) (e : DirEntry) (cacheInst : Option Cache)
    (now : Nat) (fs : CacheFS) (st' : PState)
    (hmono : CancelMono cancel)
    (hpre : psLoop cancel env ws ignoreDirs includeHidden pre
      (psInit cancel ws) = (st', false))
    (hc : cancel st'.t = true) :
    (performScanWithProgress cancel env ws (some (pre ++ e :: post))
        ignoreDirs includeHidden cacheInst now fs).canceled = true ∧
    (performScanWithProgress cancel env ws (some (pre ++ e :: post))
        ignoreDirs includeHidden cacheInst now fs).wroteCache = false ∧
    (performScanWithProgress cancel env ws (some (pre ++ e :: post))
        ignoreDirs includeHidden cacheInst now fs).fsOut = fs ∧
    (performScanWithProgress cancel env ws (some (pre ++ e :: post))
        ignoreDirs includeHidden cacheInst now fs).extracted =
      st'.extracted ∧
    (performScanWithProgress cancel env ws (some (pre ++ e :: post))
        ignoreDirs includeHidden cacheInst now fs).events = st'.events := by
  have happ := psLoop_append cancel env ws ignoreDirs includeHidden pre
    (e :: post) (psInit cancel ws)
  rw [hpre] at happ
  simp only [Bool.false_eq_true, if_false] at happ
  rw [psLoop_cancelled cancel env ws ignoreDirs includeHidden e post st'
    hmono hc] at happ
  simp [performScanWithProgress, happ]

/-- Witness for C7: two candidate directories, the signal set right
after the first candidate completes (clock 8). -/
theorem c7_witness :
    (performScanWithProgress (fun t => Nat.ble 8 t)
        (fun _ => RepoView.notRepo) "/w"
        (some ([⟨"a", true⟩] ++ [⟨"b", true⟩])) [] false none 0
        []).canceled = true ∧
    (performScanWithProgress (fun t => Nat.ble 8 t)
        (fun _ => RepoView.notRepo) "/w"
        (some ([⟨"a", true⟩] ++ [⟨"b", true⟩])) [] false none 0
        []).wroteCache = false ∧
    (performScanWithProgress (fun t => Nat.ble 8 t)
        (fun _ => RepoView.notRepo) "/w"
        (some ([⟨"a", true⟩] ++ [⟨"b", true⟩])) [] false none 0
        []).fsOut = [] ∧
    (performScanWithProgress (fun t => Nat.ble 8 t)
        (fun _ => RepoView.notRepo) "/w"
        (some ([⟨"a", true⟩] ++ [⟨"b", true⟩])) [] false none 0
        []).extracted =
      ((psLoop (fun t => Nat.ble 8 t) (fun _ => RepoView.notRepo) "/w" []
        false [⟨"a", true⟩]
        (psInit (fun t => Nat.ble 8 t) "/w")).1).extracted := by
  have hmono : CancelMono (fun t => Nat.ble 8 t) := by
    intro i j hij hi
    simp only [Nat.ble_eq] at hi ⊢
    omega
  have h := c7_cancellation (fun t => Nat.ble 8 t)
    (fun _ => RepoView.notRepo) "/w" [] false [⟨"a", true⟩] []
    ⟨"b", true⟩ none 0 []
    ((psLoop (fun t => Nat.ble 8 t) (fun _ => RepoView.notRepo) "/w" []
      false [⟨"a", true⟩] (psInit (fun t => Nat.ble 8 t) "/w")).1)
    hmono (by decide) (by decide)
  exact ⟨h.1, h.2.1, h.2.2.1, h.2.2.2.1⟩

end Thandie
